import Mathlib

/-!
Verification of the mispricing-detection core of a prediction-market scanner:
the parity arbitrage engine (`parity_scanner.py`), the probability model
(`weather_scanner.py`, `backup/generate_report.py`), the edge calculator
(`backup/generate_report.py`), the data-source classifier
(`source_detector.py`) and the opportunity ranking step.

Prices are integer cents; the Python floats are embedded as exact rationals
(no comparison below sits at a float knife edge).  The transcendental
`norm_cdf` (built on `math.erf`) and the `re` regex engine are external
library code, so they enter the embedding as explicit function parameters;
every theorem that needs facts about them takes those facts as hypotheses,
and concrete witnesses instantiate them with computable rational functions.
-/

/-- Decimal rounding `round(q, d)` as in Python.  Mathlib `round` is
half-up while Python is half-even, but no value rounded below lies on a tie. -/
def roundTo (d : ℕ) (q : ℚ) : ℚ := (round (q * 10 ^ d) : ℚ) / 10 ^ d

theorem roundTo_mono (d : ℕ) {a b : ℚ} (h : a ≤ b) : roundTo d a ≤ roundTo d b := by
  unfold roundTo
  have hp : (0 : ℚ) < 10 ^ d := by positivity
  have hr : round (a * 10 ^ d) ≤ round (b * 10 ^ d) := by
    rw [round_eq, round_eq]
    exact Int.floor_mono (by nlinarith)
  exact (div_le_div_iff_of_pos_right hp).mpr (by exact_mod_cast hr)

/-- Python `int()` truncation toward zero on a rational. -/
def intTrunc (q : ℚ) : ℤ := if 0 ≤ q then ⌊q⌋ else ⌈q⌉

/-- Kalshi fee rate, ~0.7% per contract side (`KALSHI_FEE_RATE = 0.007`). -/
def KALSHI_FEE_RATE : ℚ := 7 / 1000

/-- A market snapshot as consumed by `check_single_market_parity`; the
optional integer fields mirror the `market.get(key, 0) or 0` coalescing
in the source (a missing quote becomes 0). -/
structure Market where
  ticker : String
  title : String
  yes_ask : Option ℤ
  no_ask : Option ℤ
  yes_bid : Option ℤ
  no_bid : Option ℤ
  volume_24h : Option ℤ
  close_time : String
deriving DecidableEq

/-- The opportunity record built by `check_single_market_parity`. -/
structure Opportunity where
  arb_type : String
  ticker : String
  title : String
  yes_ask : ℤ
  no_ask : ℤ
  total_cost_cents : ℤ
  total_cost_dollars : ℚ
  net_profit : ℚ
  profit_pct : ℚ
  max_fee : ℚ
  volume_24h : ℤ
  yes_bid : ℤ
  no_bid : ℤ
  close_time : String
  url : String
  risk_score : ℤ
  stale_warning : Bool
deriving DecidableEq

/-- `calculate_risk_score` from `parity_scanner.py`. -/
def calculate_risk_score (profit_pct : ℚ) (volume : ℤ) (num_legs : ℕ) (isBracket : Bool) : ℤ :=
  let s1 : ℤ :=
    if volume > 100000 then 50 - 15
    else if volume > 10000 then 50 - 5
    else if volume < 1000 then 50 + 20
    else 50
  let s2 : ℤ :=
    if profit_pct > 5 then s1 + 25
    else if profit_pct > 3 then s1 + 15
    else if profit_pct > 1 then s1 + 5
    else if profit_pct < 3 / 10 then s1 - 5
    else s1
  let s3 : ℤ := if num_legs > 4 then s2 + 15 else if num_legs > 2 then s2 + 5 else s2
  let s4 : ℤ := if isBracket then s3 + 10 else s3
  max 0 (min 100 s4)

/-- `kalshi_url` from `report_v2.py` (standalone fallback in `parity_scanner.py`). -/
def kalshi_url (ticker : String) : String :=
  "https://kalshi.com/markets/" ++ String.mk (ticker.data.map Char.toLower)

/-- Worst-case settlement fee of the YES+NO parity trade (dollars):
`max(fee_yes_wins, fee_no_wins)` from `check_single_market_parity`. -/
def maxFeeQ (yes_ask no_ask : ℤ) : ℚ :=
  max (max 0 (100 - (yes_ask : ℚ)) * KALSHI_FEE_RATE / 100)
      (max 0 (100 - (no_ask : ℚ)) * KALSHI_FEE_RATE / 100)

/-- Worst-case net profit of the YES+NO parity trade (dollars):
`payout - total_cost_dollars - max_fee` from `check_single_market_parity`. -/
def netProfitQ (yes_ask no_ask : ℤ) : ℚ :=
  1 - ((yes_ask : ℚ) + no_ask) / 100 - maxFeeQ yes_ask no_ask

/-- `check_single_market_parity` from `parity_scanner.py`. -/
def check_single_market_parity (m : Market) : Option Opportunity :=
  let yes_ask := m.yes_ask.getD 0
  let no_ask := m.no_ask.getD 0
  if yes_ask ≤ 0 ∨ no_ask ≤ 0 then none
  else if netProfitQ yes_ask no_ask ≤ 0 then none
  else
    let total_cost_dollars : ℚ := ((yes_ask : ℚ) + no_ask) / 100
    let profit_pct : ℚ := netProfitQ yes_ask no_ask / total_cost_dollars * 100
    let vol := m.volume_24h.getD 0
    some {
      arb_type := "SINGLE_MARKET_PARITY"
      ticker := m.ticker
      title := m.title
      yes_ask := yes_ask
      no_ask := no_ask
      total_cost_cents := yes_ask + no_ask
      total_cost_dollars := total_cost_dollars
      net_profit := roundTo 4 (netProfitQ yes_ask no_ask)
      profit_pct := roundTo 2 profit_pct
      max_fee := roundTo 4 (maxFeeQ yes_ask no_ask)
      volume_24h := vol
      yes_bid := m.yes_bid.getD 0
      no_bid := m.no_bid.getD 0
      close_time := m.close_time
      url := kalshi_url m.ticker
      risk_score := calculate_risk_score profit_pct vol 2 false
      stale_warning := decide (profit_pct > 3) }

theorem maxFeeQ_nonneg (y n : ℤ) : 0 ≤ maxFeeQ y n := by
  have h1 : 0 ≤ max 0 (100 - (y : ℚ)) * KALSHI_FEE_RATE / 100 := by
    apply div_nonneg _ (by norm_num)
    exact mul_nonneg (le_max_left 0 _) (by norm_num [KALSHI_FEE_RATE])
  exact le_trans h1 (le_max_left _ _)

theorem maxFeeQ_le (y n : ℤ) (hy : 0 < y) (hn : 0 < n) :
    maxFeeQ y n ≤ 693 / 100000 := by
  have hy' : (1 : ℚ) ≤ (y : ℚ) := by exact_mod_cast hy
  have hn' : (1 : ℚ) ≤ (n : ℚ) := by exact_mod_cast hn
  have b1 : max 0 (100 - (y : ℚ)) * KALSHI_FEE_RATE / 100 ≤ 693 / 100000 := by
    have : max 0 (100 - (y : ℚ)) ≤ 99 := max_le (by norm_num) (by linarith)
    rw [KALSHI_FEE_RATE]
    nlinarith [le_max_left 0 (100 - (y : ℚ))]
  have b2 : max 0 (100 - (n : ℚ)) * KALSHI_FEE_RATE / 100 ≤ 693 / 100000 := by
    have : max 0 (100 - (n : ℚ)) ≤ 99 := max_le (by norm_num) (by linarith)
    rw [KALSHI_FEE_RATE]
    nlinarith [le_max_left 0 (100 - (n : ℚ))]
  exact max_le b1 b2

theorem roundTo_four_pos {q : ℚ} (h : 307 / 100000 ≤ q) : 0 < roundTo 4 q := by
  have h1 : (30 : ℚ) ≤ q * 10 ^ 4 := by nlinarith
  have h2 : (30 : ℤ) ≤ ⌊q * 10 ^ 4⌋ := Int.le_floor.mpr (by exact_mod_cast h1)
  have h3 : ⌊q * 10 ^ 4⌋ ≤ round (q * 10 ^ 4) := by
    rw [round_eq]
    exact Int.floor_mono (by linarith)
  have h4 : (0 : ℚ) < (round (q * 10 ^ 4) : ℚ) := by
    exact_mod_cast lt_of_lt_of_le (by norm_num : (0 : ℤ) < 30) (h2.trans h3)
  exact div_pos h4 (by positivity)

/-- C1: for positive integer-cent asks with `yes_ask + no_ask` below 100
minus the 0.7¢ fee margin, `check_single_market_parity` returns an
opportunity with strictly positive `net_profit`; whenever
`yes_ask + no_ask ≥ 100` it returns `None`. -/
theorem parity_invariant (m : Market) (y n : ℤ)
    (hy : m.yes_ask = some y) (hn : m.no_ask = some n) :
    (0 < y → 0 < n → (y : ℚ) + n < 100 - 100 * KALSHI_FEE_RATE →
      ∃ opp, check_single_market_parity m = some opp ∧ 0 < opp.net_profit)
    ∧ (100 ≤ y + n → check_single_market_parity m = none) := by
  constructor
  · intro hy0 hn0 hsum
    have hsum99 : y + n ≤ 99 := by
      by_contra hcon
      push_neg at hcon
      have h100 : (100 : ℚ) ≤ (y : ℚ) + n := by exact_mod_cast hcon
      rw [KALSHI_FEE_RATE] at hsum
      linarith
    have hsq : ((y : ℚ) + n) ≤ 99 := by exact_mod_cast hsum99
    have hnet : 307 / 100000 ≤ netProfitQ y n := by
      have hfee := maxFeeQ_le y n hy0 hn0
      unfold netProfitQ
      linarith
    have hguard : ¬(y ≤ 0 ∨ n ≤ 0) := by
      push_neg
      exact ⟨hy0, hn0⟩
    unfold check_single_market_parity
    rw [hy, hn]
    simp only [Option.getD_some]
    rw [if_neg hguard, if_neg (by linarith)]
    exact ⟨_, rfl, roundTo_four_pos hnet⟩
  · intro hsum
    unfold check_single_market_parity
    rw [hy, hn]
    simp only [Option.getD_some]
    rcases le_or_lt y 0 with h | h
    · rw [if_pos (Or.inl h)]
    rcases le_or_lt n 0 with h' | h'
    · rw [if_pos (Or.inr h')]
    rw [if_neg (by push_neg; exact ⟨h, h'⟩), if_pos]
    have h100 : (100 : ℚ) ≤ (y : ℚ) + n := by exact_mod_cast hsum
    have := maxFeeQ_nonneg y n
    unfold netProfitQ
    linarith

def mWit : Market := ⟨"w", "", some 40, some 50, none, none, none, ""⟩

def mWit2 : Market := ⟨"w2", "", some 60, some 60, none, none, none, ""⟩

theorem parity_invariant_app :
    ((0 : ℤ) < 40 ∧ (0 : ℤ) < 50 ∧ ((40 : ℤ) : ℚ) + ((50 : ℤ) : ℚ) < 100 - 100 * KALSHI_FEE_RATE
      ∧ ∃ opp, check_single_market_parity mWit = some opp ∧ 0 < opp.net_profit)
    ∧ (100 ≤ (60 : ℤ) + 60 ∧ check_single_market_parity mWit2 = none) :=
  ⟨⟨by norm_num, by norm_num, by norm_num [KALSHI_FEE_RATE],
    (parity_invariant mWit 40 50 rfl rfl).1 (by norm_num) (by norm_num)
      (by norm_num [KALSHI_FEE_RATE])⟩,
   ⟨by norm_num, (parity_invariant mWit2 60 60 rfl rfl).2 (by norm_num)⟩⟩

/-- C10: a market with a missing, zero or negative ask on either side is
rejected before any profit arithmetic. -/
theorem one_sided_quote_none (m : Market)
    (h : m.yes_ask.getD 0 ≤ 0 ∨ m.no_ask.getD 0 ≤ 0) :
    check_single_market_parity m = none := by
  unfold check_single_market_parity
  rw [if_pos h]

def mOneSided : Market := ⟨"KXONESIDE", "one sided", none, some 30, none, none, none, ""⟩

theorem one_sided_quote_none_app :
    (mOneSided.yes_ask.getD 0 ≤ 0 ∨ mOneSided.no_ask.getD 0 ≤ 0)
    ∧ check_single_market_parity mOneSided = none :=
  ⟨Or.inl (by decide), one_sided_quote_none mOneSided (Or.inl (by decide))⟩

def mC2 : Market := ⟨"t", "test", some 46, some 52, some 45, some 51, none, ""⟩

def oppC2 : Opportunity :=
  ⟨"SINGLE_MARKET_PARITY", "t", "test", 46, 52, 98, 49 / 50, 81 / 5000, 83 / 50,
    19 / 5000, 0, 45, 51, "", "https://kalshi.com/markets/t", 75, false⟩

theorem oppC2_eval : check_single_market_parity mC2 = some oppC2 := by
  unfold check_single_market_parity
  rw [show mC2.yes_ask = some 46 from rfl, show mC2.no_ask = some 52 from rfl]
  simp only [Option.getD_some]
  rw [if_neg (by norm_num),
    if_neg (by norm_num [netProfitQ, maxFeeQ, KALSHI_FEE_RATE, max_def])]
  unfold oppC2
  simp only [Option.some.injEq, Opportunity.mk.injEq, mC2]
  norm_num [netProfitQ, maxFeeQ, KALSHI_FEE_RATE, max_def, roundTo, round_eq,
    calculate_risk_score, min_def]
  decide

/-- C2 (counterexample): at `yes_ask=46, no_ask=52` the code's worst-case fee
is `max(0.7% of 54¢, 0.7% of 48¢) = $0.00378`, not the claimed ~0.15¢, so the
stored `net_profit` is `0.0162`, not ≈ `0.0186`, and `profit_pct` is `1.66`,
not ≈ `1.9`. -/
theorem parity_example_counterexample :
    ∃ opp, check_single_market_parity mC2 = some opp
      ∧ opp.net_profit = 81 / 5000 ∧ opp.max_fee = 19 / 5000 ∧ opp.profit_pct = 83 / 50
      ∧ ¬ |opp.net_profit - 186 / 10000| ≤ 1 / 1000
      ∧ ¬ |opp.max_fee - 15 / 10000| ≤ 1 / 1000
      ∧ ¬ |opp.profit_pct - 19 / 10| ≤ 1 / 10 := by
  refine ⟨oppC2, oppC2_eval, rfl, rfl, rfl, ?_, ?_, ?_⟩ <;>
    norm_num [oppC2, abs_sub_lt_iff, abs_le]

/-- C2 (amended): for `yes_ask=46, no_ask=52` at fee rate 0.7%, the worst-case
fee is `max(fee(100-46), fee(100-52)) = 54 * 0.007 / 100 = 0.00378`;
`net_profit = 1.00 - 0.98 - 0.00378 = 0.01622` (stored rounded to `0.0162`)
and `profit_pct ≈ 1.66%` (stored `1.66`). -/
theorem parity_example_amended :
    maxFeeQ 46 52 = 378 / 100000
    ∧ netProfitQ 46 52 = 1 - 98 / 100 - 378 / 100000
    ∧ check_single_market_parity mC2 = some oppC2
    ∧ oppC2.net_profit = 162 / 10000 ∧ oppC2.profit_pct = 166 / 100
    ∧ oppC2.max_fee = 38 / 10000 :=
  ⟨by norm_num [maxFeeQ, KALSHI_FEE_RATE, max_def],
   by norm_num [netProfitQ, maxFeeQ, KALSHI_FEE_RATE, max_def],
   oppC2_eval, by norm_num [oppC2], by norm_num [oppC2], by norm_num [oppC2]⟩

/-- Threshold direction in `estimate_probability`. -/
inductive Direction
  | above
  | below
deriving DecidableEq

/-- The per-metric forecast error table `error_std` of `estimate_probability`
(`weather_scanner.py`); unknown metrics default to 3.0. -/
def errorStd (metric : String) : ℚ :=
  if metric = "high_temp" then 3
  else if metric = "low_temp" then 3
  else if metric = "temperature" then 7 / 2
  else if metric = "snow" then 2
  else if metric = "rain" then 1 / 2
  else if metric = "wind" then 5
  else 3

theorem errorStd_pos (metric : String) : 0 < errorStd metric := by
  unfold errorStd
  repeat' split
  all_goals norm_num

/-- Core of `estimate_probability` (`weather_scanner.py`) on present inputs.
`ncdf` stands for the library `norm_cdf` built on `math.erf`; being external
library code it is a parameter of the embedding. -/
def estProbVal (ncdf : ℚ → ℚ) (nws_value threshold : ℚ) (direction : Direction)
    (metric : String) : ℚ :=
  let std := errorStd metric
  let diff := nws_value - threshold
  let z := if std > 0 then diff / std else if diff > 0 then 10 else -10
  let prob := if direction = .above then ncdf z * 100 else (1 - ncdf z) * 100
  roundTo 1 (max 1 (min 99 prob))

/-- `estimate_probability` including the `None` guard of the source. -/
def estimate_probability (ncdf : ℚ → ℚ) (nws_value threshold : Option ℚ)
    (direction : Direction) (metric : String) : Option ℚ :=
  match nws_value, threshold with
  | some v, some t => some (estProbVal ncdf v t direction metric)
  | _, _ => none

theorem clampRound_ge_one (p : ℚ) : 1 ≤ roundTo 1 (max 1 (min 99 p)) := by
  have h1 : roundTo 1 1 ≤ roundTo 1 (max 1 (min 99 p)) :=
    roundTo_mono 1 (le_max_left 1 _)
  have h2 : roundTo 1 1 = 1 := by norm_num [roundTo, round_eq]
  linarith

theorem clampRound_le_99 (p : ℚ) : roundTo 1 (max 1 (min 99 p)) ≤ 99 := by
  have h1 : roundTo 1 (max 1 (min 99 p)) ≤ roundTo 1 99 :=
    roundTo_mono 1 (max_le (by norm_num) (min_le_left _ _))
  have h2 : roundTo 1 99 = 99 := by norm_num [roundTo, round_eq]
  linarith

/-- C3: whatever the CDF, forecast, threshold, direction and metric (hence
whatever the table's error standard deviation), the probability returned by
`estimate_probability` is clamped into [1, 99]. -/
theorem prob_clamped (ncdf : ℚ → ℚ) (v t : ℚ) (dir : Direction) (metric : String) :
    1 ≤ estProbVal ncdf v t dir metric ∧ estProbVal ncdf v t dir metric ≤ 99 := by
  unfold estProbVal
  exact ⟨clampRound_ge_one _, clampRound_le_99 _⟩

/-- A computable strictly monotone CDF-shaped function with range in (0,1),
used to instantiate the `norm_cdf` parameter in concrete witnesses. -/
def phi0 (x : ℚ) : ℚ := 1 / 2 + x / (2 * (1 + |x|))

theorem phi0_strictMono : StrictMono phi0 := by
  intro a b hab
  unfold phi0
  have da : (0 : ℚ) < 2 * (1 + |a|) := by positivity
  have db : (0 : ℚ) < 2 * (1 + |b|) := by positivity
  have key : a * (2 * (1 + |b|)) < b * (2 * (1 + |a|)) := by
    rcases abs_cases a with ⟨ha1, ha2⟩ | ⟨ha1, ha2⟩ <;>
      rcases abs_cases b with ⟨hb1, hb2⟩ | ⟨hb1, hb2⟩ <;> nlinarith
  have := (div_lt_div_iff₀ da db).mpr key
  linarith

theorem phi0_range (x : ℚ) : 0 < phi0 x ∧ phi0 x < 1 := by
  unfold phi0
  have hd : (0 : ℚ) < 2 * (1 + |x|) := by positivity
  constructor
  · have : (-1 : ℚ) / 2 < x / (2 * (1 + |x|)) := by
      rw [div_lt_div_iff₀ (by norm_num) hd]
      nlinarith [neg_abs_le x]
    linarith
  · have : x / (2 * (1 + |x|)) < 1 / 2 := by
      rw [div_lt_div_iff₀ hd (by norm_num)]
      nlinarith [le_abs_self x]
    linarith

theorem estProb_eval0 : estProbVal phi0 0 0 .above "high_temp" = 50 := by
  norm_num [estProbVal, errorStd, phi0, roundTo, round_eq, min_def, max_def]

theorem estProb_eval1 : estProbVal phi0 (1 / 1000) 0 .above "high_temp" = 50 := by
  have habs : |(1 : ℚ) / 3000| = 1 / 3000 := abs_of_pos (by norm_num)
  norm_num [estProbVal, errorStd, phi0, roundTo, round_eq, min_def, max_def, habs]

/-- C4 (counterexample): strict monotonicity in the forecast value fails for
`estimate_probability`, even for a strictly increasing CDF with range (0,1):
rounding to one decimal (and, for larger `z`, the [1,99] clamp) collapses
distinct forecasts 0 and 0.001 to the same output 50.0. -/
theorem prob_strict_mono_counterexample :
    ¬ (∀ ncdf : ℚ → ℚ, StrictMono ncdf → (∀ x, 0 < ncdf x ∧ ncdf x < 1) →
        ∀ (t v₁ v₂ : ℚ) (metric : String), v₁ < v₂ →
          estProbVal ncdf v₁ t .above metric < estProbVal ncdf v₂ t .above metric) := by
  intro h
  have h50 := h phi0 phi0_strictMono phi0_range 0 0 (1 / 1000) "high_temp" (by norm_num)
  rw [estProb_eval0, estProb_eval1] at h50
  exact lt_irrefl _ h50

theorem estProbVal_above (ncdf : ℚ → ℚ) (v t : ℚ) (metric : String) :
    estProbVal ncdf v t .above metric
      = roundTo 1 (max 1 (min 99 (ncdf ((v - t) / errorStd metric) * 100))) := by
  unfold estProbVal
  dsimp only
  rw [if_pos (errorStd_pos metric)]
  simp

theorem estProbVal_below (ncdf : ℚ → ℚ) (v t : ℚ) (metric : String) :
    estProbVal ncdf v t .below metric
      = roundTo 1 (max 1 (min 99 ((1 - ncdf ((v - t) / errorStd metric)) * 100))) := by
  unfold estProbVal
  dsimp only
  rw [if_pos (errorStd_pos metric)]
  simp

/-- C4 (amended): for any monotone CDF the returned probability is monotone
non-decreasing in the forecast value when direction is `above` and monotone
non-increasing when direction is `below`; strictness is lost only to the
[1,99] clamp and the rounding to one decimal. -/
theorem prob_monotone_weak (ncdf : ℚ → ℚ) (hm : Monotone ncdf)
    (v₁ v₂ t : ℚ) (metric : String) (h : v₁ ≤ v₂) :
    estProbVal ncdf v₁ t .above metric ≤ estProbVal ncdf v₂ t .above metric
    ∧ estProbVal ncdf v₂ t .below metric ≤ estProbVal ncdf v₁ t .below metric := by
  have hstd := errorStd_pos metric
  have hz : (v₁ - t) / errorStd metric ≤ (v₂ - t) / errorStd metric :=
    (div_le_div_iff_of_pos_right hstd).mpr (by linarith)
  have hcdf := hm hz
  constructor
  · rw [estProbVal_above, estProbVal_above]
    exact roundTo_mono 1 (max_le_max (le_refl 1)
      (min_le_min (le_refl 99) (mul_le_mul_of_nonneg_right hcdf (by norm_num))))
  · rw [estProbVal_below, estProbVal_below]
    exact roundTo_mono 1 (max_le_max (le_refl 1)
      (min_le_min (le_refl 99) (mul_le_mul_of_nonneg_right (by linarith) (by norm_num))))

theorem prob_monotone_weak_app :
    Monotone phi0
    ∧ estProbVal phi0 0 0 .above "snow" ≤ estProbVal phi0 1 0 .above "snow"
    ∧ estProbVal phi0 1 0 .below "snow" ≤ estProbVal phi0 0 0 .below "snow" := by
  have hm : Monotone phi0 := phi0_strictMono.monotone
  have h := prob_monotone_weak phi0 hm 0 1 0 "snow" (by norm_num)
  exact ⟨hm, h.1, h.2⟩

/-- Signal strength buckets of `calculate_signal`. -/
inductive SignalStrength
  | NO_SIGNAL
  | WEAK
  | MODERATE
  | STRONG
deriving DecidableEq

/-- The dict returned by `calculate_signal` in `backup/generate_report.py`. -/
structure SignalData where
  z_score : ℚ
  signal : SignalStrength
  p_yes : ℚ
  fair_yes : ℤ
  fair_no : ℤ
deriving DecidableEq

/-- `calculate_signal` from `backup/generate_report.py`.  In Python the bare
division `z = (adjusted_nowcast - threshold) / sigma` raises
`ZeroDivisionError` when `sigma == 0`, embedded as `Except.error`; any other
`sigma`, including negative ones, is used as-is. -/
def calculate_signal (ncdf : ℚ → ℚ) (nowcast threshold sigma bias : ℚ) :
    Except String SignalData :=
  if sigma = 0 then .error "ZeroDivisionError"
  else
    let adjusted := nowcast - bias
    let z := (adjusted - threshold) / sigma
    let signal :=
      if |z| < 1 / 2 then SignalStrength.NO_SIGNAL
      else if |z| < 1 then .WEAK
      else if |z| < 2 then .MODERATE
      else .STRONG
    let p_yes := ncdf z
    let fair_yes := intTrunc (p_yes * 100)
    .ok ⟨z, signal, p_yes, fair_yes, 100 - fair_yes⟩

/-- C5 (counterexample): `calculate_signal` called with `error_std = -1 ≤ 0`
neither raises nor flags anything: it silently divides and returns a normal
result with sign-flipped `z = -0.3`. -/
theorem error_std_guard_counterexample :
    (-1 : ℚ) ≤ 0
    ∧ calculate_signal phi0 (31 / 10) (5 / 2) (-1) (3 / 10)
        = .ok ⟨-(3 / 10), .NO_SIGNAL, 5 / 13, 38, 62⟩ := by
  refine ⟨by norm_num, ?_⟩
  unfold calculate_signal
  rw [if_neg (by norm_num)]
  have habs : |(31 / 10 - 3 / 10 - 5 / 2) / (-1 : ℚ)| = 3 / 10 := by
    rw [abs_of_nonpos (by norm_num)]
    norm_num
  norm_num [habs, intTrunc, phi0, SignalData.mk.injEq, abs_of_nonpos]

/-- C5 (amended): the computation succeeds exactly when `error_std ≠ 0`;
only `error_std = 0` raises (a `ZeroDivisionError`, not a configuration
error), and negative `error_std` is consumed silently. -/
theorem calc_signal_err_iff (ncdf : ℚ → ℚ) (nowcast threshold sigma bias : ℚ) :
    (∃ sd, calculate_signal ncdf nowcast threshold sigma bias = .ok sd) ↔ sigma ≠ 0 := by
  unfold calculate_signal
  by_cases h : sigma = 0
  · simp [h]
  · simp [h]

/-- Trade side in `calculate_edge`. -/
inductive Side
  | yes
  | no
deriving DecidableEq

/-- The five branches of the decision ladder in `calculate_edge`
(`SKIP (噪音)`, `SKIP (无edge)`, `⚠️ 小仓`, `✅ 中仓`, `⭐ 重仓`). -/
inductive Recommendation
  | skipNoise
  | skipNoEdge
  | smallPos
  | midPos
  | largePos
deriving DecidableEq

/-- The dict returned by `calculate_edge`. -/
structure EdgeResult where
  gross_edge : ℤ
  net_edge : ℤ
  position : ℚ
  recommendation : Recommendation
deriving DecidableEq

/-- The gross edge of `calculate_edge`: `fair_yes - market_price` for YES,
`fair_no - (100 - market_price)` for NO. -/
def grossEdgeOf (sd : SignalData) (market_price : ℤ) : Side → ℤ
  | .yes => sd.fair_yes - market_price
  | .no => sd.fair_no - (100 - market_price)

/-- `calculate_edge` from `backup/generate_report.py`. -/
def calculate_edge (sd : SignalData) (market_price : ℤ) (side : Side)
    (tx_cost : ℤ) : EdgeResult :=
  let gross := grossEdgeOf sd market_price side
  let net := gross - tx_cost
  if sd.signal = .NO_SIGNAL then ⟨gross, net, 0, .skipNoise⟩
  else if net ≤ 0 then ⟨gross, net, 0, .skipNoEdge⟩
  else if net < 5 then ⟨gross, net, 1 / 4, .smallPos⟩
  else if net < 10 then ⟨gross, net, 1 / 2, .midPos⟩
  else ⟨gross, net, 1, .largePos⟩

/-- C6: the decision ladder is applied in order with first match winning
(NO_SIGNAL → skip; net_edge ≤ 0 → skip; < 5 → small; < 10 → medium; else
large), and with fair probability 88, market price 70, side YES and
transaction cost 5 the result is gross edge 18, net edge 13, large position,
for any non-NO_SIGNAL signal strength. -/
theorem edge_ladder (sd : SignalData) (mp : ℤ) (side : Side) (tx : ℤ) :
    ((sd.signal = .NO_SIGNAL →
        calculate_edge sd mp side tx
          = ⟨grossEdgeOf sd mp side, grossEdgeOf sd mp side - tx, 0, .skipNoise⟩)
      ∧ (sd.signal ≠ .NO_SIGNAL → grossEdgeOf sd mp side - tx ≤ 0 →
          calculate_edge sd mp side tx
            = ⟨grossEdgeOf sd mp side, grossEdgeOf sd mp side - tx, 0, .skipNoEdge⟩)
      ∧ (sd.signal ≠ .NO_SIGNAL → 0 < grossEdgeOf sd mp side - tx →
          grossEdgeOf sd mp side - tx < 5 →
          calculate_edge sd mp side tx
            = ⟨grossEdgeOf sd mp side, grossEdgeOf sd mp side - tx, 1 / 4, .smallPos⟩)
      ∧ (sd.signal ≠ .NO_SIGNAL → 5 ≤ grossEdgeOf sd mp side - tx →
          grossEdgeOf sd mp side - tx < 10 →
          calculate_edge sd mp side tx
            = ⟨grossEdgeOf sd mp side, grossEdgeOf sd mp side - tx, 1 / 2, .midPos⟩)
      ∧ (sd.signal ≠ .NO_SIGNAL → 10 ≤ grossEdgeOf sd mp side - tx →
          calculate_edge sd mp side tx
            = ⟨grossEdgeOf sd mp side, grossEdgeOf sd mp side - tx, 1, .largePos⟩))
    ∧ (∀ (z p : ℚ) (s : SignalStrength), s ≠ .NO_SIGNAL →
        calculate_edge ⟨z, s, p, 88, 12⟩ 70 .yes 5 = ⟨18, 13, 1, .largePos⟩) := by
  refine ⟨?_, ?_⟩
  · unfold calculate_edge
    dsimp only
    by_cases hs : sd.signal = .NO_SIGNAL
    · rw [if_pos hs]
      exact ⟨fun _ => rfl, fun h => absurd hs h, fun h => absurd hs h,
        fun h => absurd hs h, fun h => absurd hs h⟩
    · rw [if_neg hs]
      by_cases h0 : grossEdgeOf sd mp side - tx ≤ 0
      · rw [if_pos h0]
        exact ⟨fun h => absurd h hs, fun _ _ => rfl,
          fun _ hpos _ => absurd hpos (by omega),
          fun _ h5 _ => absurd h5 (by omega),
          fun _ h10 => absurd h10 (by omega)⟩
      · rw [if_neg h0]
        by_cases h5 : grossEdgeOf sd mp side - tx < 5
        · rw [if_pos h5]
          exact ⟨fun h => absurd h hs, fun _ hle => absurd hle h0,
            fun _ _ _ => rfl,
            fun _ hge _ => absurd hge (by omega),
            fun _ h10 => absurd h10 (by omega)⟩
        · rw [if_neg h5]
          by_cases h10 : grossEdgeOf sd mp side - tx < 10
          · rw [if_pos h10]
            exact ⟨fun h => absurd h hs, fun _ hle => absurd hle h0,
              fun _ _ hlt => absurd hlt h5,
              fun _ _ _ => rfl,
              fun _ hge => absurd hge (by omega)⟩
          · rw [if_neg h10]
            exact ⟨fun h => absurd h hs, fun _ hle => absurd hle h0,
              fun _ _ hlt => absurd hlt h5,
              fun _ _ hlt => absurd hlt h10,
              fun _ _ => rfl⟩
  · intro z p s hs
    unfold calculate_edge grossEdgeOf
    dsimp only
    rw [if_neg hs, if_neg (by norm_num), if_neg (by norm_num), if_neg (by norm_num)]
    decide

theorem edge_ladder_app :
    SignalStrength.MODERATE ≠ .NO_SIGNAL
    ∧ calculate_edge ⟨6 / 5, .MODERATE, 88 / 100, 88, 12⟩ 70 .yes 5 = ⟨18, 13, 1, .largePos⟩ :=
  ⟨by decide,
   (edge_ladder ⟨6 / 5, .MODERATE, 88 / 100, 88, 12⟩ 70 .yes 5).2 (6 / 5) (88 / 100)
     .MODERATE (by decide)⟩

/-- ASCII lowering of `f"{rules_primary} {title}".lower()` in `detect_sources`. -/
def lowerStr (s : String) : String := String.mk (s.data.map Char.toLower)

/-- Substring search on character lists (Python's `keyword in text`). -/
def subSeq (xs ys : List Char) : Bool :=
  (List.range (ys.length + 1)).any (fun i => xs.isPrefixOf (ys.drop i))

def substrOf (needle haystack : String) : Bool := subSeq needle.data haystack.data

/-- One row of `OFFICIAL_SOURCE_PATTERNS` / `KEYWORD_HINTS` in
`source_detector.py`: (regex-or-keyword, source tag, research tier, method). -/
structure PatEntry where
  pattern : String
  source : String
  tier : ℕ
  method : String
deriving DecidableEq

/-- The `detection_method` string of the result dict. -/
inductive DetectionMethod
  | byRegex
  | byKeyword
  | bySpeculation
  | byNone
deriving DecidableEq

/-- The loop state of `detect_sources`: `found_sources`, `best_tier`,
`best_method`, `detection`. -/
structure DetState where
  found : List String
  bestTier : ℕ
  bestMethod : String
  det : DetectionMethod
deriving DecidableEq

/-- The dict returned by `detect_sources`. -/
structure ClassificationResult where
  verifiable : Bool
  sources : List String
  research_tier : ℕ
  research_method : String
  detection : DetectionMethod
deriving DecidableEq

/-- `OFFICIAL_SOURCE_PATTERNS` from `source_detector.py`, in source order. -/
def OFFICIAL_SOURCE_PATTERNS : List PatEntry := [
  ⟨"bls\\.gov|bureau of labor statistics", "BLS", 1, "Cleveland Fed Nowcast / BLS releases"⟩,
  ⟨"bea\\.gov|bureau of economic analysis", "BEA", 1, "Atlanta Fed GDPNow / BEA releases"⟩,
  ⟨"weather\\.gov|national weather service|nws", "NWS", 1, "NWS forecast API"⟩,
  ⟨"federalreserve\\.gov|federal reserve|fomc", "FOMC", 1, "CME FedWatch + FOMC dots"⟩,
  ⟨"census\\.gov|census bureau", "Census", 1, "Census Bureau releases"⟩,
  ⟨"treasury\\.gov|department of treasury", "Treasury", 2, "Treasury statements + debt data"⟩,
  ⟨"congress\\.gov|house\\.gov|senate\\.gov", "Congress", 2, "国会日程 + 投票记录"⟩,
  ⟨"sec\\.gov|securities and exchange", "SEC", 2, "SEC filings + announcements"⟩,
  ⟨"cbo\\.gov|congressional budget office", "CBO", 2, "CBO projections"⟩,
  ⟨"eia\\.gov|energy information", "EIA", 2, "EIA energy data"⟩,
  ⟨"usda\\.gov|department of agriculture", "USDA", 2, "USDA crop reports"⟩,
  ⟨"cme\\s?group|chicago mercantile", "CME", 2, "CME settlement prices"⟩,
  ⟨"coinmarketcap|coingecko|binance|coinbase", "Crypto", 4, "无预测 edge"⟩,
  ⟨"nyse|nasdaq|s&p\\s*500|dow jones", "Exchange", 4, "无预测 edge"⟩,
  ⟨"executive order|sign.*(order|bill|act)|federal register", "WhiteHouse", 2, "白宫公告 + Federal Register"⟩,
  ⟨"whitehouse\\.gov|white house", "WhiteHouse", 3, "白宫公告 + 新闻"⟩,
  ⟨"ustr\\.gov|trade representative", "USTR", 3, "USTR 贸易公告"⟩,
  ⟨"state\\.gov|department of state", "State", 3, "国务院声明"⟩,
  ⟨"dhs\\.gov|homeland security", "DHS", 3, "DHS 公告"⟩,
  ⟨"nominat|appoint.*(chair|secretary|justice|director|ambassador)", "Nomination", 3, "官方提名 + 新闻追踪"⟩,
  ⟨"fed\\s*chair|federal reserve chair", "FedChair", 3, "白宫提名 + 参议院确认"⟩,
  ⟨"supreme court|scotus", "SCOTUS", 3, "法院公告 + 新闻"⟩,
  ⟨"cabinet\\s*(member|secretary|position)", "Cabinet", 3, "白宫提名 + 参议院确认"⟩,
  ⟨"greenland|territory|annex|acqui(re|sition)", "ForeignPolicy", 3, "外交新闻 + 官方声明"⟩,
  ⟨"tariff.*\\d+%|import\\s*dut", "Tariff", 3, "USTR 公告 + 贸易新闻"⟩,
  ⟨"sanction|embargo", "Sanctions", 3, "Treasury OFAC + 新闻"⟩,
  ⟨"treaty|agreement.*(sign|ratif)", "Treaty", 3, "国务院 + 新闻"⟩,
  ⟨"impeach|article.*impeachment", "Impeachment", 3, "国会投票记录 + 新闻"⟩,
  ⟨"vote.*pass|pass.*vote|floor vote", "CongressVote", 3, "国会日程 + 投票追踪"⟩,
  ⟨"veto|override", "Veto", 3, "白宫声明 + 国会记录"⟩,
  ⟨"resign|step down|leave office|out as (president|governor|ceo|leader)", "LeaderChange", 3, "官方声明 + 新闻"⟩,
  ⟨"recall|special election", "Recall", 3, "选举委员会 + 新闻"⟩,
  ⟨"(khamenei|xi jinping|putin|kim jong|erdogan|modi|netanyahu).*(out|leave|die|replace|succeed)", "ForeignLeader", 3, "国际新闻 + 情报分析"⟩,
  ⟨"(supreme leader|prime minister|president of).*(iran|china|russia|north korea)", "ForeignLeader", 3, "国际新闻 + 情报分析"⟩,
  ⟨"successor.*(xi|putin|khamenei|kim)", "ForeignLeader", 3, "国际新闻 + 情报分析"⟩,
  ⟨"(xi|putin|khamenei|kim).*successor", "ForeignLeader", 3, "国际新闻 + 情报分析"⟩,
  ⟨"primary|caucus|runoff", "Primary", 3, "选举结果 + 民调追踪"⟩,
  ⟨"midterm|general election.*\\d{4}", "Election", 3, "选举结果 + 民调"⟩,
  ⟨"electoral vote|winner.*state", "ElectionResult", 3, "选举结果"⟩]

/-- `SPECULATION_PATTERNS` from `source_detector.py`. -/
def SPECULATION_PATTERNS : List String := [
  "first\\s*(trillionaire|quadrillionaire)",
  "(203\\d|204\\d).*become.*president",
  "who will be.*president.*(203|204|205)",
  "next\\s*pope",
  "alien|ufo|extraterrestrial",
  "world\\s*war\\s*(3|iii|three)"]

/-- `KEYWORD_HINTS` from `source_detector.py`, in insertion order (Python
dicts preserve it); the `pattern` field holds the keyword. -/
def KEYWORD_HINTS : List PatEntry := [
  ⟨"gdp", "BEA", 1, "Atlanta Fed GDPNow"⟩,
  ⟨"gross domestic product", "BEA", 1, "Atlanta Fed GDPNow"⟩,
  ⟨"cpi", "BLS", 1, "Cleveland Fed Nowcast"⟩,
  ⟨"consumer price index", "BLS", 1, "Cleveland Fed Nowcast"⟩,
  ⟨"inflation", "BLS", 1, "Cleveland Fed Nowcast"⟩,
  ⟨"unemployment", "BLS", 1, "BLS Employment Report"⟩,
  ⟨"jobless claims", "BLS", 1, "Weekly DOL Report"⟩,
  ⟨"nonfarm payroll", "BLS", 1, "BLS Employment Report"⟩,
  ⟨"interest rate", "FOMC", 1, "CME FedWatch"⟩,
  ⟨"federal funds", "FOMC", 1, "CME FedWatch"⟩,
  ⟨"rate cut", "FOMC", 1, "CME FedWatch"⟩,
  ⟨"rate hike", "FOMC", 1, "CME FedWatch"⟩,
  ⟨"temperature", "NWS", 1, "NWS forecast API"⟩,
  ⟨"high of", "NWS", 1, "NWS forecast API"⟩,
  ⟨"low of", "NWS", 1, "NWS forecast API"⟩,
  ⟨"government shutdown", "Congress", 2, "国会日程 + 预算截止日"⟩,
  ⟨"debt ceiling", "Treasury", 2, "Treasury X-date + CBO"⟩,
  ⟨"tariff", "USTR", 3, "USTR 公告 + 贸易新闻"⟩,
  ⟨"bitcoin", "Crypto", 4, "无预测 edge"⟩,
  ⟨"ethereum", "Crypto", 4, "无预测 edge"⟩,
  ⟨"btc", "Crypto", 4, "无预测 edge"⟩,
  ⟨"eth", "Crypto", 4, "无预测 edge"⟩,
  ⟨"nominate", "Nomination", 3, "官方提名 + 新闻"⟩,
  ⟨"fed chair", "FedChair", 3, "白宫提名 + 参议院确认"⟩,
  ⟨"impeach", "Impeachment", 3, "国会记录 + 新闻"⟩,
  ⟨"greenland", "ForeignPolicy", 3, "外交新闻 + 官方声明"⟩,
  ⟨"resign", "LeaderChange", 3, "官方声明 + 新闻"⟩,
  ⟨"primary", "Primary", 3, "选举结果 + 民调"⟩,
  ⟨"midterm", "Election", 3, "选举结果 + 民调"⟩,
  ⟨"supreme court", "SCOTUS", 3, "法院公告 + 新闻"⟩]

/-- One iteration of the matching loops in `detect_sources`: on a match whose
source tag is new, append it and lower `best_tier`/`best_method`; `pred`
closes over the regex engine (or keyword containment) and the lowered text. -/
def patStep (pred : PatEntry → Bool) (dm : DetectionMethod) (st : DetState)
    (e : PatEntry) : DetState :=
  if pred e then
    if e.source ∈ st.found then st
    else ⟨st.found ++ [e.source],
          if e.tier < st.bestTier then e.tier else st.bestTier,
          if e.tier < st.bestTier then e.method else st.bestMethod, dm⟩
  else st

def runPat (pred : PatEntry → Bool) (dm : DetectionMethod) (st : DetState)
    (tbl : List PatEntry) : DetState :=
  tbl.foldl (patStep pred dm) st

/-- Loop entry state: `found_sources = []`, `best_tier = 9`, `best_method = ""`,
`detection = "none"`. -/
def initState : DetState := ⟨[], 9, "", .byNone⟩

def loweredText (rules_text title : String) : String :=
  lowerStr (rules_text ++ " " ++ title)

/-- `detect_sources` from `source_detector.py`; `matcher` stands for
`re.search` with `IGNORECASE` (the `re` library is external code), applied to
the already lowered combined text; the keyword fallback uses concrete
substring containment as in the source. -/
def detect_sources (matcher : String → String → Bool) (rules_text title : String) :
    ClassificationResult :=
  let text := loweredText rules_text title
  if SPECULATION_PATTERNS.any (fun p => matcher p text) then
    ⟨true, [], 9, "纯猜测，无有效研究方法", .bySpeculation⟩
  else
    let st1 := runPat (fun e => matcher e.pattern text) .byRegex initState OFFICIAL_SOURCE_PATTERNS
    let st2 := if st1.found = [] then runPat (fun e => substrOf e.pattern text) .byKeyword st1 KEYWORD_HINTS else st1
    if st2.found = [] then ⟨false, st2.found, 9, "无明确数据源", st2.det⟩
    else ⟨true, st2.found, st2.bestTier, st2.bestMethod, st2.det⟩

/-- The tiers of all table rows matched by `pred`, in table order. -/
def matchedTiers (pred : PatEntry → Bool) (tbl : List PatEntry) : List ℕ :=
  (tbl.filter pred).map (fun e => e.tier)

/-- Rows with equal source tags appear in non-decreasing tier order; both
tables of `source_detector.py` satisfy this, which is what makes the
dedup-by-source loop still report the minimum matched tier. -/
def sameSrcMono (a b : PatEntry) : Prop := a.source = b.source → a.tier ≤ b.tier

instance : DecidableRel sameSrcMono := fun a b => by
  unfold sameSrcMono
  infer_instance

theorem runPat_no_match (pred : PatEntry → Bool) (dm : DetectionMethod) :
    ∀ (tbl : List PatEntry) (st : DetState), (∀ e ∈ tbl, ¬ pred e = true) →
      runPat pred dm st tbl = st := by
  intro tbl
  induction tbl with
  | nil => intro st _; rfl
  | cons e rest ih =>
    intro st h
    rw [List.forall_mem_cons] at h
    have hstep : patStep pred dm st e = st := by
      unfold patStep
      rw [if_neg h.1]
    rw [show runPat pred dm st (e :: rest) = runPat pred dm (patStep pred dm st e) rest from rfl,
      hstep]
    exact ih st h.2

theorem runPat_found_empty_iff (pred : PatEntry → Bool) (dm : DetectionMethod) :
    ∀ (tbl : List PatEntry) (st : DetState),
      ((runPat pred dm st tbl).found = [] ↔ st.found = [] ∧ ∀ e ∈ tbl, ¬ pred e = true) := by
  intro tbl
  induction tbl with
  | nil => intro st; simp [runPat]
  | cons e rest ih =>
    intro st
    rw [show runPat pred dm st (e :: rest) = runPat pred dm (patStep pred dm st e) rest from rfl,
      List.forall_mem_cons]
    unfold patStep
    by_cases hp : pred e = true
    · rw [if_pos hp]
      by_cases hmem : e.source ∈ st.found
      · rw [if_pos hmem, ih]
        constructor
        · rintro ⟨h1, -⟩
          exact absurd h1 (List.ne_nil_of_mem hmem)
        · rintro ⟨-, h2, -⟩
          exact absurd hp h2
      · rw [if_neg hmem, ih]
        constructor
        · rintro ⟨h1, -⟩
          simp at h1
        · rintro ⟨-, h2, -⟩
          exact absurd hp h2
    · rw [if_neg hp, ih]
      constructor
      · rintro ⟨h1, h2⟩
        exact ⟨h1, fun h => absurd h hp, h2⟩
      · rintro ⟨h1, -, h3⟩
        exact ⟨h1, h3⟩

theorem runPat_bestTier (pred : PatEntry → Bool) (dm : DetectionMethod) :
    ∀ (tbl : List PatEntry) (st : DetState),
      List.Pairwise sameSrcMono tbl →
      (∀ e ∈ tbl, pred e = true → e.source ∈ st.found → st.bestTier ≤ e.tier) →
      (runPat pred dm st tbl).bestTier = (matchedTiers pred tbl).foldl min st.bestTier := by
  intro tbl
  induction tbl with
  | nil => intro st _ _; rfl
  | cons e rest ih =>
    intro st hpw hinv
    rw [List.pairwise_cons] at hpw
    rw [List.forall_mem_cons] at hinv
    rw [show runPat pred dm st (e :: rest) = runPat pred dm (patStep pred dm st e) rest from rfl]
    by_cases hp : pred e = true
    · have hmt : matchedTiers pred (e :: rest) = e.tier :: matchedTiers pred rest := by
        simp [matchedTiers, List.filter_cons, hp]
      rw [hmt, List.foldl_cons]
      by_cases hmem : e.source ∈ st.found
      · have hstep : patStep pred dm st e = st := by
          unfold patStep
          rw [if_pos hp, if_pos hmem]
        have hbe : st.bestTier ≤ e.tier := hinv.1 hp hmem
        rw [hstep, min_eq_left hbe]
        exact ih st hpw.2 (fun e' he' hp' hm' => hinv.2 e' he' hp' hm')
      · have hbt : (if e.tier < st.bestTier then e.tier else st.bestTier)
            = min st.bestTier e.tier := by
          rcases lt_or_ge e.tier st.bestTier with h | h
          · rw [if_pos h, min_eq_right (le_of_lt h)]
          · rw [if_neg (not_lt.mpr h), min_eq_left h]
        have hstep : patStep pred dm st e
            = ⟨st.found ++ [e.source],
               if e.tier < st.bestTier then e.tier else st.bestTier,
               if e.tier < st.bestTier then e.method else st.bestMethod, dm⟩ := by
          unfold patStep
          rw [if_pos hp, if_neg hmem]
        rw [hstep]
        have hinv' : ∀ e' ∈ rest, pred e' = true →
            e'.source ∈ st.found ++ [e.source] →
            (if e.tier < st.bestTier then e.tier else st.bestTier) ≤ e'.tier := by
          intro e' he' hp' hm'
          rw [hbt]
          rcases List.mem_append.mp hm' with h | h
          · exact le_trans (min_le_left _ _) (hinv.2 e' he' hp' h)
          · have hsrc : e'.source = e.source := by simpa using h
            exact le_trans (min_le_right _ _) (hpw.1 e' he' hsrc.symm)
        have hres := ih ⟨st.found ++ [e.source],
          if e.tier < st.bestTier then e.tier else st.bestTier,
          if e.tier < st.bestTier then e.method else st.bestMethod, dm⟩ hpw.2 hinv'
        rw [hres]
        dsimp only
        rw [hbt]
    · have hstep : patStep pred dm st e = st := by
        unfold patStep
        rw [if_neg hp]
      have hmt : matchedTiers pred (e :: rest) = matchedTiers pred rest := by
        simp [matchedTiers, List.filter_cons, hp]
      rw [hstep, hmt]
      exact ih st hpw.2 (fun e' he' => hinv.2 e' he')

theorem foldl_min_le_init : ∀ (l : List ℕ) (b : ℕ), l.foldl min b ≤ b := by
  intro l
  induction l with
  | nil => intro b; exact le_refl b
  | cons x xs ih =>
    intro b
    exact le_trans (ih (min b x)) (min_le_left _ _)

theorem foldl_min_le_mem : ∀ (l : List ℕ) (b : ℕ), ∀ u ∈ l, l.foldl min b ≤ u := by
  intro l
  induction l with
  | nil => intro b u hu; cases hu
  | cons x xs ih =>
    intro b u hu
    rcases List.mem_cons.mp hu with h | hu'
    · rw [h]
      calc (x :: xs).foldl min b = xs.foldl min (min b x) := rfl
      _ ≤ min b x := foldl_min_le_init xs (min b x)
      _ ≤ x := min_le_right _ _
    · exact ih (min b x) u hu'

theorem foldl_min_cases : ∀ (l : List ℕ) (b : ℕ), l.foldl min b = b ∨ l.foldl min b ∈ l := by
  intro l
  induction l with
  | nil => intro b; exact Or.inl rfl
  | cons x xs ih =>
    intro b
    rcases ih (min b x) with h | h
    · rcases min_cases b x with ⟨hm, -⟩ | ⟨hm, -⟩
      · exact Or.inl (by rw [show (x :: xs).foldl min b = xs.foldl min (min b x) from rfl, h, hm])
      · exact Or.inr (by rw [show (x :: xs).foldl min b = xs.foldl min (min b x) from rfl, h, hm]; exact List.mem_cons_self x xs)
    · exact Or.inr (List.mem_cons_of_mem x h)

theorem foldl_min_mem_of_lt (l : List ℕ) (hne : l ≠ []) (hlt : ∀ u ∈ l, u < 9) :
    l.foldl min 9 ∈ l := by
  rcases foldl_min_cases l 9 with h | h
  · exfalso
    obtain ⟨u, hu⟩ := List.exists_mem_of_ne_nil l hne
    have h1 := foldl_min_le_mem l 9 u hu
    have h2 := hlt u hu
    omega
  · exact h

theorem matchedTiers_eq_nil (pred : PatEntry → Bool) (tbl : List PatEntry) :
    matchedTiers pred tbl = [] ↔ ∀ e ∈ tbl, ¬ pred e = true := by
  simp [matchedTiers]

theorem matchedTiers_lt_nine (pred : PatEntry → Bool) (tbl : List PatEntry)
    (h : ∀ e ∈ tbl, e.tier < 9) : ∀ u ∈ matchedTiers pred tbl, u < 9 := by
  intro u hu
  simp only [matchedTiers, List.mem_map, List.mem_filter] at hu
  obtain ⟨e, ⟨he, -⟩, rfl⟩ := hu
  exact h e he

theorem official_pairwise : List.Pairwise sameSrcMono OFFICIAL_SOURCE_PATTERNS := by decide

theorem keyword_pairwise : List.Pairwise sameSrcMono KEYWORD_HINTS := by decide

theorem official_tier_lt : ∀ e ∈ OFFICIAL_SOURCE_PATTERNS, e.tier < 9 := by decide

theorem keyword_tier_lt : ∀ e ∈ KEYWORD_HINTS, e.tier < 9 := by decide

/-- C7: when no speculation pattern fires, the reported `research_tier` is the
minimum tier over all matched rows — over the regex table when at least one
regex matches, and over the keyword-hint table when no regex matches but some
keyword is contained in the lowered text.  Holds for any regex engine
`matcher` because equal source tags appear in non-decreasing tier order. -/
theorem tier_min_property (matcher : String → String → Bool) (rules_text title : String)
    (hspec : ∀ p ∈ SPECULATION_PATTERNS, ¬ matcher p (loweredText rules_text title) = true) :
    (matchedTiers (fun e => matcher e.pattern (loweredText rules_text title))
        OFFICIAL_SOURCE_PATTERNS ≠ [] →
      (detect_sources matcher rules_text title).research_tier
          ∈ matchedTiers (fun e => matcher e.pattern (loweredText rules_text title))
              OFFICIAL_SOURCE_PATTERNS
        ∧ ∀ u ∈ matchedTiers (fun e => matcher e.pattern (loweredText rules_text title))
              OFFICIAL_SOURCE_PATTERNS,
            (detect_sources matcher rules_text title).research_tier ≤ u)
    ∧ (matchedTiers (fun e => matcher e.pattern (loweredText rules_text title))
          OFFICIAL_SOURCE_PATTERNS = [] →
        matchedTiers (fun e => substrOf e.pattern (loweredText rules_text title))
            KEYWORD_HINTS ≠ [] →
        (detect_sources matcher rules_text title).research_tier
            ∈ matchedTiers (fun e => substrOf e.pattern (loweredText rules_text title))
                KEYWORD_HINTS
          ∧ ∀ u ∈ matchedTiers (fun e => substrOf e.pattern (loweredText rules_text title))
                KEYWORD_HINTS,
              (detect_sources matcher rules_text title).research_tier ≤ u) := by
  have hany : ¬ (SPECULATION_PATTERNS.any
      (fun p => matcher p (loweredText rules_text title)) = true) := by
    rw [List.any_eq_true]
    rintro ⟨p, hp, hm⟩
    exact hspec p hp hm
  constructor
  · intro hne
    have hfound : ¬ ((runPat (fun e => matcher e.pattern (loweredText rules_text title))
        .byRegex initState OFFICIAL_SOURCE_PATTERNS).found = []) := by
      rw [runPat_found_empty_iff]
      rintro ⟨-, hall⟩
      exact hne ((matchedTiers_eq_nil _ _).mpr hall)
    unfold detect_sources
    dsimp only
    rw [if_neg hany, if_neg hfound, if_neg hfound]
    dsimp only
    have hbt := runPat_bestTier (fun e => matcher e.pattern (loweredText rules_text title))
      .byRegex OFFICIAL_SOURCE_PATTERNS initState official_pairwise
      (by intro e he hp hm; simp [initState] at hm)
    rw [hbt]
    exact ⟨foldl_min_mem_of_lt _ hne (matchedTiers_lt_nine _ _ official_tier_lt),
      fun u hu => foldl_min_le_mem _ _ u hu⟩
  · intro hre hkw
    have hall1 : ∀ e ∈ OFFICIAL_SOURCE_PATTERNS,
        ¬ (fun e => matcher e.pattern (loweredText rules_text title)) e = true :=
      (matchedTiers_eq_nil _ _).mp hre
    have hst1 : runPat (fun e => matcher e.pattern (loweredText rules_text title))
        .byRegex initState OFFICIAL_SOURCE_PATTERNS = initState :=
      runPat_no_match _ _ _ _ hall1
    have hfound2 : ¬ ((runPat (fun e => substrOf e.pattern (loweredText rules_text title))
        .byKeyword initState KEYWORD_HINTS).found = []) := by
      rw [runPat_found_empty_iff]
      rintro ⟨-, hall⟩
      exact hkw ((matchedTiers_eq_nil _ _).mpr hall)
    unfold detect_sources
    dsimp only
    rw [if_neg hany, hst1]
    rw [if_pos (show initState.found = [] from rfl)]
    rw [if_neg hfound2]
    dsimp only
    have hbt := runPat_bestTier (fun e => substrOf e.pattern (loweredText rules_text title))
      .byKeyword KEYWORD_HINTS initState keyword_pairwise
      (by intro e he hp hm; simp [initState] at hm)
    rw [hbt]
    exact ⟨foldl_min_mem_of_lt _ hkw (matchedTiers_lt_nine _ _ keyword_tier_lt),
      fun u hu => foldl_min_le_mem _ _ u hu⟩

def matcher0 : String → String → Bool :=
  fun p _ => p == "bls\\.gov|bureau of labor statistics"

theorem tier_min_property_app :
    (detect_sources matcher0 "resolves per the bureau of labor statistics" "CPI").research_tier
        ∈ matchedTiers
            (fun e => matcher0 e.pattern
              (loweredText "resolves per the bureau of labor statistics" "CPI"))
            OFFICIAL_SOURCE_PATTERNS
    ∧ ∀ u ∈ matchedTiers
          (fun e => matcher0 e.pattern
            (loweredText "resolves per the bureau of labor statistics" "CPI"))
          OFFICIAL_SOURCE_PATTERNS,
        (detect_sources matcher0 "resolves per the bureau of labor statistics" "CPI").research_tier
          ≤ u :=
  (tier_min_property matcher0 "resolves per the bureau of labor statistics" "CPI"
    (by decide)).1 (by decide)

/-- C8: the classification invariant — empty `sources` forces tier 9;
`verifiable = false` happens only with empty `sources` and no speculation
match; a speculation match yields tier 9, `verifiable = true`, empty
`sources`. -/
theorem classification_invariant (matcher : String → String → Bool)
    (rules_text title : String) :
    ((detect_sources matcher rules_text title).sources = [] →
      (detect_sources matcher rules_text title).research_tier = 9)
    ∧ ((detect_sources matcher rules_text title).verifiable = false →
        (detect_sources matcher rules_text title).sources = []
        ∧ SPECULATION_PATTERNS.any
            (fun p => matcher p (loweredText rules_text title)) = false)
    ∧ (SPECULATION_PATTERNS.any
          (fun p => matcher p (loweredText rules_text title)) = true →
        (detect_sources matcher rules_text title).research_tier = 9
        ∧ (detect_sources matcher rules_text title).verifiable = true
        ∧ (detect_sources matcher rules_text title).sources = []) := by
  unfold detect_sources
  dsimp only
  by_cases hs : SPECULATION_PATTERNS.any
      (fun p => matcher p (loweredText rules_text title)) = true
  · rw [if_pos hs]
    exact ⟨fun _ => rfl, fun h => absurd h (by simp), fun _ => ⟨rfl, rfl, rfl⟩⟩
  · rw [if_neg hs]
    have hs' : SPECULATION_PATTERNS.any
        (fun p => matcher p (loweredText rules_text title)) = false :=
      Bool.eq_false_iff.mpr hs
    by_cases hf : (if (runPat (fun e => matcher e.pattern (loweredText rules_text title))
          .byRegex initState OFFICIAL_SOURCE_PATTERNS).found = []
        then runPat (fun e => substrOf e.pattern (loweredText rules_text title))
          .byKeyword (runPat (fun e => matcher e.pattern (loweredText rules_text title))
            .byRegex initState OFFICIAL_SOURCE_PATTERNS) KEYWORD_HINTS
        else runPat (fun e => matcher e.pattern (loweredText rules_text title))
          .byRegex initState OFFICIAL_SOURCE_PATTERNS).found = []
    · rw [if_pos hf]
      exact ⟨fun _ => rfl, fun _ => ⟨hf, hs'⟩, fun h => absurd h hs⟩
    · rw [if_neg hf]
      exact ⟨fun h => absurd h hf, fun h => absurd h (by simp), fun h => absurd h hs⟩

def matcherNone : String → String → Bool := fun _ _ => false

theorem classification_invariant_app :
    (detect_sources matcherNone "" "").sources = []
    ∧ (detect_sources matcherNone "" "").research_tier = 9 :=
  ⟨by decide, (classification_invariant matcherNone "" "").1 (by decide)⟩

/-- Stable insertion step of the ranking sort: a new opportunity goes before
the first strictly smaller `profit_pct` and after all equal ones, which is
the ordering Python's stable `list.sort(key=lambda x: -x["profit_pct"])`
produces in `scan_all_parity`. -/
def insertDesc (x : Opportunity) : List Opportunity → List Opportunity
  | [] => [x]
  | y :: ys => if y.profit_pct < x.profit_pct then x :: y :: ys else y :: insertDesc x ys

/-- The ranking step of `scan_all_parity`:
`all_opportunities.sort(key=lambda x: -x.get("profit_pct", 0))` — a stable
sort on `profit_pct` descending, with no further tiebreak key. -/
def sortOpportunities (l : List Opportunity) : List Opportunity :=
  l.foldl (fun acc x => insertDesc x acc) []

theorem insertDesc_perm (x : Opportunity) :
    ∀ l : List Opportunity, (insertDesc x l).Perm (x :: l) := by
  intro l
  induction l with
  | nil => exact List.Perm.refl _
  | cons y ys ih =>
    unfold insertDesc
    by_cases h : y.profit_pct < x.profit_pct
    · rw [if_pos h]
    · rw [if_neg h]
      exact (ih.cons y).trans (List.Perm.swap x y ys)

theorem insertDesc_sorted (x : Opportunity) :
    ∀ l : List Opportunity,
      List.Sorted (fun a b => b.profit_pct ≤ a.profit_pct) l →
      List.Sorted (fun a b => b.profit_pct ≤ a.profit_pct) (insertDesc x l) := by
  intro l
  induction l with
  | nil => intro _; simp [insertDesc]
  | cons y ys ih =>
    intro hs
    rw [List.sorted_cons] at hs
    unfold insertDesc
    by_cases h : y.profit_pct < x.profit_pct
    · rw [if_pos h, List.sorted_cons]
      refine ⟨?_, List.sorted_cons.mpr hs⟩
      intro b hb
      rcases List.mem_cons.mp hb with hby | hbys
      · rw [hby]; exact le_of_lt h
      · exact le_trans (hs.1 b hbys) (le_of_lt h)
    · rw [if_neg h, List.sorted_cons]
      refine ⟨?_, ih hs.2⟩
      intro b hb
      rcases List.mem_cons.mp ((insertDesc_perm x ys).mem_iff.mp hb) with hbx | hbys
      · rw [hbx]; exact le_of_not_lt h
      · exact hs.1 b hbys

theorem sortAux_perm :
    ∀ (l acc : List Opportunity),
      (l.foldl (fun a x => insertDesc x a) acc).Perm (acc ++ l) := by
  intro l
  induction l with
  | nil => intro acc; simp
  | cons x xs ih =>
    intro acc
    refine (ih (insertDesc x acc)).trans ?_
    refine ((insertDesc_perm x acc).append_right xs).trans ?_
    exact List.perm_middle.symm

theorem sortAux_sorted :
    ∀ (l acc : List Opportunity),
      List.Sorted (fun a b => b.profit_pct ≤ a.profit_pct) acc →
      List.Sorted (fun a b => b.profit_pct ≤ a.profit_pct)
        (l.foldl (fun a x => insertDesc x a) acc) := by
  intro l
  induction l with
  | nil => intro acc h; exact h
  | cons x xs ih =>
    intro acc h
    exact ih (insertDesc x acc) (insertDesc_sorted x acc h)

/-- C9 (amended): the ranking produced by `scan_all_parity` is a permutation
of its input sorted by `profit_pct` descending; the sort is stable and keyed
on `profit_pct` alone, with no ticker tiebreak, so ties keep arrival order. -/
theorem scan_sort_amended (l : List Opportunity) :
    List.Sorted (fun a b => b.profit_pct ≤ a.profit_pct) (sortOpportunities l)
    ∧ (sortOpportunities l).Perm l := by
  constructor
  · exact sortAux_sorted l [] (by simp)
  · refine (sortAux_perm l []).trans ?_
    simp

def oppTieA : Opportunity :=
  ⟨"SINGLE_MARKET_PARITY", "AAA", "", 40, 50, 90, 9 / 10, 931 / 10000, 1, 42 / 10000,
    0, 0, 0, "", "https://kalshi.com/markets/aaa", 75, false⟩

def oppTieB : Opportunity :=
  ⟨"SINGLE_MARKET_PARITY", "BBB", "", 45, 45, 90, 9 / 10, 931 / 10000, 1, 385 / 100000,
    0, 0, 0, "", "https://kalshi.com/markets/bbb", 75, false⟩

/-- C9 (counterexample): two opportunities with equal `profit_pct` but
different tickers: presenting them to the ranking step in the two possible
arrival orders yields two different ranked lists, so one scan pass is not
invariant under the arrival order of concurrent fetches. -/
theorem scan_order_counterexample :
    ([oppTieA, oppTieB].Perm [oppTieB, oppTieA]
      ∧ oppTieA.profit_pct = oppTieB.profit_pct
      ∧ oppTieA.ticker ≠ oppTieB.ticker)
    ∧ sortOpportunities [oppTieA, oppTieB] ≠ sortOpportunities [oppTieB, oppTieA] := by
  refine ⟨⟨List.Perm.swap oppTieB oppTieA [], rfl, by decide⟩, ?_⟩
  have h1 : sortOpportunities [oppTieA, oppTieB] = [oppTieA, oppTieB] := by
    show insertDesc oppTieB (insertDesc oppTieA []) = [oppTieA, oppTieB]
    rw [show insertDesc oppTieA [] = [oppTieA] from rfl]
    unfold insertDesc
    rw [if_neg (by norm_num [oppTieA, oppTieB])]
    rfl
  have h2 : sortOpportunities [oppTieB, oppTieA] = [oppTieB, oppTieA] := by
    show insertDesc oppTieA (insertDesc oppTieB []) = [oppTieB, oppTieA]
    rw [show insertDesc oppTieB [] = [oppTieB] from rfl]
    unfold insertDesc
    rw [if_neg (by norm_num [oppTieA, oppTieB])]
    rfl
  rw [h1, h2]
  intro hcontra
  have hh : oppTieA = oppTieB := by
    simpa using congrArg List.head? hcontra
  have ht : oppTieA.ticker = oppTieB.ticker := congrArg Opportunity.ticker hh
  exact absurd ht (by decide)
